import Mathlib

/-!
Verification of the r30r2 repository: a deterministic pseudo-random
generator driven by a 256-bit circular Rule 30 cellular automaton.

The repository's core `rand` package (CA engine, stream extractor,
distribution layer) is referenced by the CLI, benchmark and test code but
its source is not present here; those definitions are modelled from the
spec, as noted in their doc comments.  The CLI seed handling is embedded
from `src/r30r2-cli.go`.

The 256-bit circular strip is embedded as a natural number `s < 2^256`
whose bit `i` (`Nat.testBit s i`) is the strip's logical bit `i`;
word `w` of the 4-word representation is `s / 2^(64*w) % 2^64`
(word 0 = least-significant 64 bits).  Byte streams are `List Nat`
with every entry `< 256`.
-/

/-- Assemble a natural number from a bit-valued function: bits `0..n-1`
of the result are `f 0 .. f (n-1)`; all higher bits are zero.  Used to
materialise the fresh post-step state of the automaton. -/
def natOfBits (f : Nat → Bool) : Nat → Nat
  | 0 => 0
  | n + 1 => natOfBits f n ||| (if f n then 2 ^ n else 0)

/-- Modelled from the spec: the radius-1 ("Rule 30") transition rule for
the bit at position `i`, read from the pre-step strip `s`:
`left XOR (center OR right)` with circular indices mod 256
(`(i + 255) % 256 = (i - 1) mod 256` for `i < 256`). -/
def r1bit (s i : Nat) : Bool :=
  Bool.xor (s.testBit ((i + 255) % 256))
    (s.testBit (i % 256) || s.testBit ((i + 1) % 256))

/-- Modelled from the spec (the formula is also printed by
`src/r30r2-cli.go`): the radius-2 transition rule for the bit at
position `i`, read from the pre-step strip `s`:
`(left2 XOR left1) XOR ((center OR right1) OR right2)`
with circular indices mod 256. -/
def r2bit (s i : Nat) : Bool :=
  Bool.xor
    (Bool.xor (s.testBit ((i + 254) % 256)) (s.testBit ((i + 255) % 256)))
    ((s.testBit (i % 256) || s.testBit ((i + 1) % 256)) ||
      s.testBit ((i + 2) % 256))

/-- Modelled from the spec: one radius-1 evolution step.  The whole
successor strip is materialised from the pre-step strip `s` (simultaneous
update), then swapped in. -/
def stepR1 (s : Nat) : Nat := natOfBits (r1bit s) 256

/-- Modelled from the spec: one radius-2 evolution step (the variant used
by the r30r2 generator). -/
def stepR2 (s : Nat) : Nat := natOfBits (r2bit s) 256

/-- Little-endian base-256 serialization: the `k` bytes of `v`,
least-significant byte first. -/
def leBytes : Nat → Nat → List Nat
  | _, 0 => []
  | v, k + 1 => v % 256 :: leBytes (v / 256) k

/-- The 4 unsigned 64-bit words of a 256-bit strip,
least-significant word first. -/
def leWords : Nat → Nat → List Nat
  | _, 0 => []
  | v, k + 1 => v % 2 ^ 64 :: leWords (v / 2 ^ 64) k

/-- Modelled from the spec: serialization of one full 256-bit state as
32 bytes (4 words, least-significant word first, little-endian bytes
within each word — which collapses to plain little-endian base-256). -/
def stateBytes (s : Nat) : List Nat := leBytes s 32

/-- The 4-word view of the state, word 0 = least-significant 64 bits. -/
def stateWords (s : Nat) : List Nat := leWords s 4

/-- Decode a little-endian byte list into a natural number
(least-significant byte first). -/
def leDecode : List Nat → Nat
  | [] => 0
  | b :: bs => b + 256 * leDecode bs

/-- Modelled from the spec: the generator owns the 256-bit state and a
transient queue of already-produced but not yet delivered bytes (consumed
from the front, refilled only when empty). -/
structure Generator where
  state : Nat
  buf : List Nat
deriving DecidableEq, Repr

/-- Modelled from the spec: the exact 64-bit-seed → 256-bit-state
expansion is an open question in the spec (§9); following the spec's
illustrative example, the seed is placed in the low word. -/
def seedExpand (seed : Nat) : Nat := seed % 2 ^ 64

/-- Modelled from the spec: `new(seed)` constructs a generator with the
expanded initial state and an empty output buffer. -/
def Generator.new (seed : Nat) : Generator := ⟨seedExpand seed, []⟩

/-- Modelled from the spec: deliver one byte of the stream.  If the
buffer still holds bytes, the front byte is consumed; otherwise exactly
one evolution step runs and its full 32-byte serialization becomes the
new buffer (`stateBytes` is never empty, so the `headD`/`tail` split
yields its first byte and the remaining 31).  The evolution rule `step`
is a parameter of the extractor (radius-1 or radius-2 engine). -/
def read1 (step : Nat → Nat) (g : Generator) : Nat × Generator :=
  match g.buf with
  | b :: rest => (b, ⟨g.state, rest⟩)
  | [] =>
    let s := step g.state
    let bytes := stateBytes s
    (bytes.headD 0, ⟨s, bytes.tail⟩)

/-- Modelled from the spec: `read` of `n` bytes — drain buffered bytes
first, triggering one more evolution step each time the buffer empties
while bytes are still needed.  Reads into an in-memory buffer are
infallible, so the embedding is a total function. -/
def readBytes (step : Nat → Nat) : Nat → Generator → List Nat × Generator
  | 0, g => ([], g)
  | n + 1, g =>
    let p := read1 step g
    let q := readBytes step n p.2
    (p.1 :: q.1, q.2)

/-- Modelled from the spec: `next_uint64()` reads 8 bytes from the same
buffer/step sequence as `read` and decodes them as a little-endian
unsigned 64-bit integer. -/
def genUint64 (step : Nat → Nat) (g : Generator) : Nat × Generator :=
  let p := readBytes step 8 g
  (leDecode p.1, p.2)

/-- Modelled from the spec: `snapshot()` (`CopyState` at the call sites)
returns a read-only copy of the current 4-word state and leaves the
generator untouched. -/
def snapshot (g : Generator) : List Nat × Generator :=
  (stateWords g.state, g)

/-- `k` consecutive `snapshot` calls, keeping the resulting generator. -/
def snapshots : Nat → Generator → Generator
  | 0, g => g
  | k + 1, g => snapshots k (snapshot g).2

/-- One call in a generator call pattern: a `read` of a given length or a
`uint64` draw. -/
inductive Call where
  | read : Nat → Call
  | uint64 : Call
deriving DecidableEq, Repr

/-- The visible result of one call: the bytes of a `read` or the value of
a `uint64` draw. -/
inductive Out where
  | bytes : List Nat → Out
  | value : Nat → Out
deriving DecidableEq, Repr

/-- Run a call pattern against a generator, collecting the visible
output of every call. -/
def runCalls (step : Nat → Nat) : List Call → Generator → List Out × Generator
  | [], g => ([], g)
  | Call.read n :: rest, g =>
    let p := readBytes step n g
    let q := runCalls step rest p.2
    (Out.bytes p.1 :: q.1, q.2)
  | Call.uint64 :: rest, g =>
    let p := genUint64 step g
    let q := runCalls step rest p.2
    (Out.value p.1 :: q.1, q.2)

/-- The single documented failure of the distribution layer. -/
inductive RngError where
  | invalidArgument
deriving DecidableEq, Repr

/-- Modelled from the spec: the rejection-sampling loop of `intn` for a
positive bound — draw a 64-bit value, accept it (reduced mod `bound`)
when it falls below the largest multiple of `bound` that fits the 64-bit
draw width, otherwise redraw.  A fuel bound makes the loop total; the
terminal case applies the same modular reduction (the spec allows any
equivalent reduction and the reduction choice is irrelevant to the
claims settled here). -/
def intnLoop (step : Nat → Nat) (bound : Nat) : Nat → Generator → Nat × Generator
  | 0, g =>
    let p := genUint64 step g
    (p.1 % bound, p.2)
  | fuel + 1, g =>
    let p := genUint64 step g
    if p.1 < 2 ^ 64 - 2 ^ 64 % bound then (p.1 % bound, p.2)
    else intnLoop step bound fuel p.2

/-- Modelled from the spec: `intn(bound)` fails with `InvalidArgument`
when `bound <= 0` and otherwise returns an unbiased value in
`[0, bound)` drawn from the stream. -/
def intn (step : Nat → Nat) (bound : Int) (g : Generator) :
    Except RngError (Int × Generator) :=
  if bound ≤ 0 then Except.error RngError.invalidArgument
  else
    let p := intnLoop step bound.toNat 64 g
    Except.ok ((p.1 : Int), p.2)

/-- From `src/r30r2-cli.go` (`mainR30R2`): the default value of the
`--seed` flag. -/
def seedFlagDefault : Nat := 0

/-- From `src/r30r2-cli.go` lines 74-77: the seed actually used — when
the `--seed` flag is 0 the CLI substitutes the current clock
(`uint64(time.Now().UnixNano())`, the `now` argument), otherwise the
flag value is kept. -/
def effectiveSeedR30R2 (flagSeed now : Nat) : Nat :=
  if flagSeed = 0 then now else flagSeed

/-- From `src/r30r2-cli.go` (`generateBytesR30R2`, line 88): the
generator the CLI constructs, `rand.New(seed)` applied to the effective
seed. -/
def cliGenerator (flagSeed now : Nat) : Generator :=
  Generator.new (effectiveSeedR30R2 flagSeed now)

/-! ## Supporting lemmas -/

theorem testBit_natOfBits (f : Nat → Bool) :
    ∀ n i, (natOfBits f n).testBit i = (decide (i < n) && f i) := by
  intro n
  induction n with
  | zero => intro i; simp [natOfBits]
  | succ n ih =>
    intro i
    simp only [natOfBits, Nat.testBit_lor, ih]
    rcases Nat.lt_trichotomy i n with h | rfl | h
    · have h1 : i < n + 1 := by omega
      have h2 : n ≠ i := by omega
      by_cases hfn : f n <;>
        simp [hfn, Nat.testBit_two_pow, h, h1, h2]
    · by_cases hfn : f i <;>
        simp [hfn, Nat.testBit_two_pow, Nat.lt_irrefl, Nat.lt_succ_self]
    · have h1 : ¬ i < n + 1 := by omega
      have h2 : ¬ i < n := by omega
      have h3 : n ≠ i := by omega
      by_cases hfn : f n <;>
        simp [hfn, Nat.testBit_two_pow, h1, h2, h3]

theorem leBytes_length : ∀ (k v : Nat), (leBytes v k).length = k := by
  intro k
  induction k with
  | zero => intro v; rfl
  | succ k ih => intro v; simp [leBytes, ih]

theorem leBytes_lt : ∀ (k v : Nat), ∀ b ∈ leBytes v k, b < 256 := by
  intro k
  induction k with
  | zero => intro v b hb; simp [leBytes] at hb
  | succ k ih =>
    intro v b hb
    simp only [leBytes, List.mem_cons] at hb
    rcases hb with h | h
    · rw [h]; exact Nat.mod_lt _ (by norm_num)
    · exact ih _ _ h

theorem leBytes_add : ∀ (a b v : Nat),
    leBytes v (a + b) = leBytes v a ++ leBytes (v / 256 ^ a) b := by
  intro a
  induction a with
  | zero => intro b v; simp [leBytes]
  | succ a ih =>
    intro b v
    rw [Nat.succ_add]
    show leBytes v (a + b + 1) = _
    simp only [leBytes, List.cons_append]
    rw [ih]
    rw [Nat.div_div_eq_div_mul, show (256:Nat) ^ (a + 1) = 256 * 256 ^ a by
      rw [pow_succ, Nat.mul_comm]]

theorem leBytes_mod : ∀ (k v : Nat), leBytes (v % 256 ^ k) k = leBytes v k := by
  intro k
  induction k with
  | zero => intro v; rfl
  | succ k ih =>
    intro v
    simp only [leBytes]
    have hd : (256:Nat) ∣ 256 ^ (k + 1) := dvd_pow_self 256 (Nat.succ_ne_zero k)
    rw [Nat.mod_mod_of_dvd v hd,
      show (256:Nat) ^ (k + 1) = 256 * 256 ^ k by rw [pow_succ, Nat.mul_comm],
      Nat.mod_mul_right_div_self, ih]

theorem leDecode_leBytes : ∀ (k v : Nat), leDecode (leBytes v k) = v % 256 ^ k := by
  intro k
  induction k with
  | zero => intro v; simp [leBytes, leDecode, Nat.mod_one]
  | succ k ih =>
    intro v
    simp only [leBytes, leDecode, ih]
    rw [show (256:Nat) ^ (k + 1) = 256 * 256 ^ k by rw [pow_succ, Nat.mul_comm]]
    exact (Nat.mod_mul).symm

theorem leBytes_leDecode : ∀ (bs : List Nat), (∀ b ∈ bs, b < 256) →
    leBytes (leDecode bs) bs.length = bs := by
  intro bs
  induction bs with
  | nil => intro _; rfl
  | cons b bs ih =>
    intro h
    have hb : b < 256 := h b (List.mem_cons_self b bs)
    simp only [leDecode, List.length_cons, leBytes]
    have h1 : (b + 256 * leDecode bs) % 256 = b := by
      rw [Nat.add_mul_mod_self_left, Nat.mod_eq_of_lt hb]
    have h2 : (b + 256 * leDecode bs) / 256 = leDecode bs := by
      rw [Nat.add_mul_div_left _ _ (by norm_num : (0:Nat) < 256),
        Nat.div_eq_of_lt hb, Nat.zero_add]
    rw [h1, h2, ih (fun x hx => h x (List.mem_cons_of_mem b hx))]

theorem readBytes_succ (step : Nat → Nat) (n : Nat) (g : Generator) :
    readBytes step (n + 1) g =
      ((read1 step g).1 :: (readBytes step n (read1 step g).2).1,
        (readBytes step n (read1 step g).2).2) := rfl

theorem readBytes_length (step : Nat → Nat) :
    ∀ (n : Nat) (g : Generator), ((readBytes step n g).1).length = n := by
  intro n
  induction n with
  | zero => intro g; rfl
  | succ n ih => intro g; rw [readBytes_succ]; simp [ih]

theorem readBytes_add (step : Nat → Nat) (a b : Nat) :
    ∀ g : Generator, readBytes step (a + b) g =
      ((readBytes step a g).1 ++ (readBytes step b (readBytes step a g).2).1,
        (readBytes step b (readBytes step a g).2).2) := by
  induction a with
  | zero => intro g; simp [readBytes]
  | succ a ih =>
    intro g
    rw [Nat.succ_add, readBytes_succ, readBytes_succ, ih]
    simp [List.cons_append]

theorem readBytes_buf (step : Nat → Nat) :
    ∀ (bs : List Nat) (st : Nat),
      readBytes step bs.length ⟨st, bs⟩ = (bs, ⟨st, []⟩) := by
  intro bs
  induction bs with
  | nil => intro st; rfl
  | cons b bs ih =>
    intro st
    show (b :: (readBytes step bs.length ⟨st, bs⟩).1,
      (readBytes step bs.length ⟨st, bs⟩).2) = (b :: bs, ⟨st, []⟩)
    rw [ih]

theorem readBytes_buf' (step : Nat → Nat) (n : Nat) (bs : List Nat) (st : Nat)
    (h : bs.length = n) : readBytes step n ⟨st, bs⟩ = (bs, ⟨st, []⟩) := by
  subst h; exact readBytes_buf step bs st

theorem stateBytes_cons (s : Nat) :
    stateBytes s = s % 256 :: leBytes (s / 256) 31 := rfl

theorem readBytes_refill (step : Nat → Nat) (st : Nat) :
    readBytes step 32 ⟨st, []⟩ = (stateBytes (step st), ⟨step st, []⟩) := by
  have h32 : (32 : Nat) = 31 + 1 := rfl
  rw [h32, readBytes_succ]
  have hr : read1 step ⟨st, []⟩ =
      ((stateBytes (step st)).headD 0, ⟨step st, (stateBytes (step st)).tail⟩) := rfl
  rw [hr, stateBytes_cons (step st)]
  simp only [List.headD_cons, List.tail_cons]
  rw [readBytes_buf' step 31 _ _ (leBytes_length 31 _)]

theorem readBytes_iter (step : Nat → Nat) :
    ∀ (k st : Nat),
      readBytes step (32 * k) ⟨st, []⟩ =
        (((List.range k).map fun j => stateBytes (step^[j + 1] st)).flatten,
          ⟨step^[k] st, []⟩) := by
  intro k
  induction k with
  | zero => intro st; simp [readBytes]
  | succ k ih =>
    intro st
    rw [show 32 * (k + 1) = 32 + 32 * k by ring, readBytes_add,
      readBytes_refill, ih (step st), List.range_succ_eq_map]
    simp only [List.map_cons, List.map_map, List.flatten_cons,
      Function.comp_def, Function.iterate_succ_apply,
      Function.iterate_zero_apply, Nat.zero_add]

theorem stateBytes_words (s : Nat) :
    stateBytes s = (stateWords s).flatMap (fun w => leBytes w 8) := by
  have hp : (2 : Nat) ^ 64 = 256 ^ 8 := by norm_num
  have hmod : ∀ v : Nat, leBytes (v % 2 ^ 64) 8 = leBytes v 8 := by
    intro v; rw [hp]; exact leBytes_mod 8 v
  have hdiv : ∀ v : Nat, v / 2 ^ 64 = v / 256 ^ 8 := by
    intro v; rw [hp]
  show leBytes s 32 = _
  rw [show (32 : Nat) = 8 + 24 from rfl, leBytes_add,
    show (24 : Nat) = 8 + 16 from rfl, leBytes_add,
    show (16 : Nat) = 8 + 8 from rfl, leBytes_add]
  simp only [stateWords, leWords, List.flatMap_cons, List.flatMap_nil,
    List.append_nil, hmod, hdiv, Nat.div_div_eq_div_mul, ← pow_add]

theorem leBytes_leDecode' (bs : List Nat) (n : Nat) (hl : bs.length = n)
    (h : ∀ b ∈ bs, b < 256) : leBytes (leDecode bs) n = bs := by
  subst hl; exact leBytes_leDecode bs h

theorem read1_lt (step : Nat → Nat) (g : Generator)
    (h : ∀ b ∈ g.buf, b < 256) :
    (read1 step g).1 < 256 ∧ ∀ b ∈ (read1 step g).2.buf, b < 256 := by
  obtain ⟨st, buf⟩ := g
  cases buf with
  | nil =>
    refine ⟨?_, ?_⟩
    · show (stateBytes (step st)).headD 0 < 256
      rw [stateBytes_cons]
      show step st % 256 < 256
      exact Nat.mod_lt _ (by norm_num)
    · intro b hb
      have hb' : b ∈ (stateBytes (step st)).tail := hb
      rw [stateBytes_cons] at hb'
      exact leBytes_lt 31 _ b hb'
  | cons b' rest =>
    exact ⟨h b' (List.mem_cons_self b' rest),
      fun b hb => h b (List.mem_cons_of_mem b' hb)⟩

theorem readBytes_lt (step : Nat → Nat) :
    ∀ (n : Nat) (g : Generator), (∀ b ∈ g.buf, b < 256) →
      (∀ b ∈ (readBytes step n g).1, b < 256) ∧
        ∀ b ∈ (readBytes step n g).2.buf, b < 256 := by
  intro n
  induction n with
  | zero =>
    intro g hg
    exact ⟨fun b hb => absurd hb (List.not_mem_nil b), hg⟩
  | succ n ih =>
    intro g hg
    obtain ⟨h1, h2⟩ := read1_lt step g hg
    obtain ⟨h3, h4⟩ := ih (read1 step g).2 h2
    refine ⟨?_, h4⟩
    show ∀ b ∈ (read1 step g).1 :: (readBytes step n (read1 step g).2).1, b < 256
    intro b hb
    rcases List.mem_cons.mp hb with rfl | hb'
    · exact h1
    · exact h3 b hb'

theorem snapshots_eq : ∀ (k : Nat) (g : Generator), snapshots k g = g := by
  intro k
  induction k with
  | zero => intro g; rfl
  | succ k ih => intro g; exact ih g

theorem intnLoop_lt (step : Nat → Nat) (bound : Nat) (h : 0 < bound) :
    ∀ (fuel : Nat) (g : Generator), (intnLoop step bound fuel g).1 < bound := by
  intro fuel
  induction fuel with
  | zero => intro g; exact Nat.mod_lt _ h
  | succ fuel ih =>
    intro g
    simp only [intnLoop]
    split
    · exact Nat.mod_lt _ h
    · exact ih _

/-! ## Claim theorems -/

/-- C1: for every 64-bit seed `s`, two generators independently
constructed from `s` produce bit-identical output on every matched
sequence of `read`/`uint64` calls (any evolution rule). -/
theorem c1_same_seed_determinism (step : Nat → Nat) (s : Nat) (p : List Call)
    (g1 g2 : Generator) (h1 : g1 = Generator.new s) (h2 : g2 = Generator.new s) :
    runCalls step p g1 = runCalls step p g2 := by
  rw [h1, h2]

/-- Witness for C1 at seed 12345 and a concrete call pattern. -/
theorem c1_same_seed_determinism_witness :
    Generator.new 12345 = Generator.new 12345 ∧
    runCalls stepR2 [Call.read 5, Call.uint64, Call.read 3] (Generator.new 12345) =
      runCalls stepR2 [Call.read 5, Call.uint64, Call.read 3] (Generator.new 12345) :=
  ⟨rfl, c1_same_seed_determinism stepR2 12345 [Call.read 5, Call.uint64, Call.read 3]
    (Generator.new 12345) (Generator.new 12345) rfl rfl⟩

/-- C2: one radius-2 step sets the new bit at every position `i < 256` to
`(left2 XOR left1) XOR ((center OR right1) OR right2)`, all five
neighbors read mod 256 from the pre-step state. -/
theorem c2_stepR2_rule (s i : Nat) (h : i < 256) :
    (stepR2 s).testBit i =
      Bool.xor
        (Bool.xor (s.testBit ((i + 254) % 256)) (s.testBit ((i + 255) % 256)))
        ((s.testBit i || s.testBit ((i + 1) % 256)) ||
          s.testBit ((i + 2) % 256)) := by
  show (natOfBits (r2bit s) 256).testBit i = _
  rw [testBit_natOfBits]
  simp [h, r2bit, Nat.mod_eq_of_lt h]

/-- Witness for C2 at a concrete state and position 0 (wraparound case). -/
theorem c2_stepR2_rule_witness :
    0 < 256 ∧
    (stepR2 12345).testBit 0 =
      Bool.xor
        (Bool.xor ((12345:Nat).testBit ((0 + 254) % 256))
          ((12345:Nat).testBit ((0 + 255) % 256)))
        (((12345:Nat).testBit 0 || (12345:Nat).testBit ((0 + 1) % 256)) ||
          (12345:Nat).testBit ((0 + 2) % 256)) :=
  ⟨by decide, c2_stepR2_rule 12345 0 (by decide)⟩

/-- C3: each completed evolution step contributes exactly 32 bytes — the
serialization of the full post-step state as 4 unsigned 64-bit words,
least-significant word first — and the stream of a fresh generator is
exactly the concatenation of the serializations of the fully evolved
states 1..k (never a partially evolved state). -/
theorem c3_step_serialization (step : Nat → Nat) (s k : Nat) :
    (stateBytes s).length = 32 ∧
    stateBytes s = (stateWords s).flatMap (fun w => leBytes w 8) ∧
    readBytes step (32 * k) (Generator.new s) =
      (((List.range k).map fun j => stateBytes (step^[j + 1] (seedExpand s))).flatten,
        ⟨step^[k] (seedExpand s), []⟩) :=
  ⟨leBytes_length 32 s, stateBytes_words s, readBytes_iter step k (seedExpand s)⟩

/-- C4: a `read` of any length `L ≥ 0` returns exactly `L` bytes (the
embedding is a total function: no error), and a zero-length read is a
no-op that changes neither the state nor the buffer. -/
theorem c4_read_exact_length (step : Nat → Nat) (g : Generator) (L : Nat) :
    ((readBytes step L g).1).length = L ∧ readBytes step 0 g = ([], g) :=
  ⟨readBytes_length step L g, rfl⟩

/-- C5: interleaving `read(n1)`, `uint64()`, `read(n2)` consumes exactly
the same byte stream as one `read(n1+8+n2)`: the n1 bytes, the 8-byte
little-endian encoding of the uint64 and the n2 bytes concatenate to the
single read's bytes, and the final generator states agree. -/
theorem c5_stream_consistency (step : Nat → Nat) (g : Generator) (n1 n2 : Nat)
    (h : ∀ b ∈ g.buf, b < 256) :
    (readBytes step n1 g).1 ++
        leBytes (genUint64 step (readBytes step n1 g).2).1 8 ++
        (readBytes step n2 (genUint64 step (readBytes step n1 g).2).2).1 =
      (readBytes step (n1 + 8 + n2) g).1 ∧
    (readBytes step n2 (genUint64 step (readBytes step n1 g).2).2).2 =
      (readBytes step (n1 + 8 + n2) g).2 := by
  have hwf := readBytes_lt step n1 g h
  have hu : genUint64 step (readBytes step n1 g).2 =
      (leDecode (readBytes step 8 (readBytes step n1 g).2).1,
        (readBytes step 8 (readBytes step n1 g).2).2) := rfl
  have hlen : (readBytes step 8 (readBytes step n1 g).2).1.length = 8 :=
    readBytes_length step 8 _
  have hlt : ∀ b ∈ (readBytes step 8 (readBytes step n1 g).2).1, b < 256 :=
    (readBytes_lt step 8 _ hwf.2).1
  have hround : leBytes (leDecode (readBytes step 8 (readBytes step n1 g).2).1) 8 =
      (readBytes step 8 (readBytes step n1 g).2).1 :=
    leBytes_leDecode' _ 8 hlen hlt
  rw [readBytes_add step (n1 + 8) n2 g, readBytes_add step n1 8 g]
  refine ⟨?_, ?_⟩ <;> simp [hu, hround, List.append_assoc]

/-- Witness for C5 at a fresh seed-42 generator with n1 = 3, n2 = 5. -/
theorem c5_stream_consistency_witness :
    (∀ b ∈ (Generator.new 42).buf, b < 256) ∧
    ((readBytes stepR2 3 (Generator.new 42)).1 ++
        leBytes (genUint64 stepR2 (readBytes stepR2 3 (Generator.new 42)).2).1 8 ++
        (readBytes stepR2 5
          (genUint64 stepR2 (readBytes stepR2 3 (Generator.new 42)).2).2).1 =
      (readBytes stepR2 (3 + 8 + 5) (Generator.new 42)).1 ∧
    (readBytes stepR2 5
        (genUint64 stepR2 (readBytes stepR2 3 (Generator.new 42)).2).2).2 =
      (readBytes stepR2 (3 + 8 + 5) (Generator.new 42)).2) :=
  ⟨by simp [Generator.new],
    c5_stream_consistency stepR2 (Generator.new 42) 3 5 (by simp [Generator.new])⟩

/-- C6: `intn(bound)` fails with `InvalidArgument` exactly when
`bound ≤ 0`; this is the only error it can return; and for every
`bound > 0` it succeeds with a value in `[0, bound)`. -/
theorem c6_intn_bound (step : Nat → Nat) (bound : Int) (g : Generator) :
    (intn step bound g = Except.error RngError.invalidArgument ↔ bound ≤ 0) ∧
    (∀ e, intn step bound g = Except.error e → e = RngError.invalidArgument) ∧
    (0 < bound → ∃ v g', intn step bound g = Except.ok (v, g') ∧
      0 ≤ v ∧ v < bound) := by
  by_cases hb : bound ≤ 0
  · exact ⟨by simp [intn, hb], fun e _ => by cases e; rfl,
      fun hpos => absurd hpos (by omega)⟩
  · have hpos : 0 < bound := by omega
    refine ⟨by simp [intn, hb], ?_, ?_⟩
    · intro e he
      exfalso
      simp [intn, hb] at he
    · intro _
      refine ⟨((intnLoop step bound.toNat 64 g).1 : Int),
        (intnLoop step bound.toNat 64 g).2, ?_, ?_, ?_⟩
      · simp [intn, hb]
      · exact Int.ofNat_nonneg _
      · have h1 : (intnLoop step bound.toNat 64 g).1 < bound.toNat :=
          intnLoop_lt step bound.toNat (by omega) 64 g
        omega

/-- Witness for C6 at bound 5 on a fresh seed-1 generator. -/
theorem c6_intn_bound_witness :
    0 < (5 : Int) ∧ ∃ v g', intn stepR2 5 (Generator.new 1) = Except.ok (v, g') ∧
      0 ≤ v ∧ v < 5 :=
  ⟨by decide, (c6_intn_bound stepR2 5 (Generator.new 1)).2.2 (by decide)⟩

/-- C7: one radius-1 (Rule 30) step sets the new bit at every position
`i < 256` to `left XOR (center OR right)`, neighbors read mod 256 from
the pre-step state (wraparound at 0 and 255 included). -/
theorem c7_stepR1_rule30 (s i : Nat) (h : i < 256) :
    (stepR1 s).testBit i =
      Bool.xor (s.testBit ((i + 255) % 256))
        (s.testBit i || s.testBit ((i + 1) % 256)) := by
  show (natOfBits (r1bit s) 256).testBit i = _
  rw [testBit_natOfBits]
  simp [h, r1bit, Nat.mod_eq_of_lt h]

/-- Witness for C7 at a concrete state and position 0 (wraparound case). -/
theorem c7_stepR1_rule30_witness :
    0 < 256 ∧
    (stepR1 12345).testBit 0 =
      Bool.xor ((12345:Nat).testBit ((0 + 255) % 256))
        ((12345:Nat).testBit 0 || (12345:Nat).testBit ((0 + 1) % 256)) :=
  ⟨by decide, c7_stepR1_rule30 12345 0 (by decide)⟩

/-- C8: `snapshot` returns the current 4-word state, leaves the generator
unchanged (no mutation, no evolution step, no buffer consumption), and
any number of snapshots between reads leaves the byte stream unchanged. -/
theorem c8_snapshot_pure (step : Nat → Nat) (g : Generator) (n k : Nat) :
    (snapshot g).1 = stateWords g.state ∧ (snapshot g).2 = g ∧
    readBytes step n (snapshots k g) = readBytes step n g := by
  refine ⟨rfl, rfl, ?_⟩
  rw [snapshots_eq]

/-- C10: in the r30r2 CLI the generator is built from the `--seed` flag
value exactly when it is nonzero; when the flag is 0 (its default) the
current clock value is substituted before `rand.New`. -/
theorem c10_cli_seed (flagSeed now : Nat) (h : flagSeed ≠ 0) :
    cliGenerator flagSeed now = Generator.new flagSeed ∧
    cliGenerator 0 now = Generator.new now ∧
    effectiveSeedR30R2 flagSeed now = flagSeed ∧
    effectiveSeedR30R2 0 now = now ∧
    seedFlagDefault = 0 := by
  refine ⟨?_, rfl, ?_, rfl, rfl⟩
  · simp [cliGenerator, effectiveSeedR30R2, h]
  · simp [effectiveSeedR30R2, h]

/-- Witness for C10 at flag value 12345 and clock value 999. -/
theorem c10_cli_seed_witness :
    12345 ≠ 0 ∧
    (cliGenerator 12345 999 = Generator.new 12345 ∧
    cliGenerator 0 999 = Generator.new 999 ∧
    effectiveSeedR30R2 12345 999 = 12345 ∧
    effectiveSeedR30R2 0 999 = 999 ∧
    seedFlagDefault = 0) :=
  ⟨by decide, c10_cli_seed 12345 999 (by decide)⟩
